import Mathlib

/-!
Verification of the property-chatbot repository: a shallow embedding of the
PostgreSQL-backed search engine (`chatbot_postgres.py`) and the ingestion
pipeline (`fetch_to_postgres.py`), with theorems settling the frozen claims.

Modelling conventions:
- SQL NULL is `Option.none`; SQL comparisons against NULL are false
  (three-valued logic collapsed at the WHERE clause).
- `DECIMAL` prices and timestamps are modelled as `Int`.
- Python truthiness (`if params.get(...)`) is: `none` is falsy, `some 0`
  and `some ""` are falsy, everything else truthy.
- `ORDER BY` is modelled by an executable sort with the PostgreSQL default
  null placement (`DESC` puts NULLs first, `ASC` puts NULLs last).
-/

/-- A row of the `properties` table, restricted to the columns written by
`PropertyFetcher.insert_properties` and read by
`PropertyChatbotDB.search_properties`.  `listing_key` is the primary key
(`VARCHAR(50) PRIMARY KEY`, never NULL). -/
structure Listing where
  listing_key : String
  unparsed_address : Option String := none
  city : Option String := none
  state_province : Option String := none
  postal_code : Option String := none
  list_price : Option Int := none
  standard_status : Option String := none
  property_type : Option String := none
  property_subtype : Option String := none
  bedrooms : Option Int := none
  bathrooms : Option Int := none
  year_built : Option Int := none
  public_remarks : Option String := none
  last_updated : Option Int := none
deriving DecidableEq, Repr

/-- A row of the `property_media` table (the columns written by
`PropertyFetcher.insert_media`).  `listing_key` is a nullable foreign key. -/
structure MediaRecord where
  listing_key : Option String := none
  media_url : Option String := none
  media_type : Option String := none
  media_category : Option String := none
  display_order : Option Int := none
  description : Option String := none
  is_primary : Bool := false
deriving DecidableEq, Repr

/-- The two tables the pipeline and the search engine touch. -/
structure DBState where
  properties : List Listing
  media : List MediaRecord
deriving DecidableEq, Repr

/-- The keyword arguments of `PropertyChatbotDB.search_properties`; `none`
covers both an absent key and an explicit Python `None` (the code reads them
with `params.get`, which cannot distinguish the two). -/
structure SearchParams where
  city : Option String := none
  min_price : Option Int := none
  max_price : Option Int := none
  bedrooms : Option Int := none
  bathrooms : Option Int := none
deriving DecidableEq, Repr

/-- Substring test on character lists (no SQL wildcard metacharacters are
involved: the code wraps the parameter as `%value%`). -/
def charsContains (needle : List Char) : List Char → Bool
  | [] => needle.isEmpty
  | c :: rest => needle.isPrefixOf (c :: rest) || charsContains needle rest

/-- Models `LOWER(city) LIKE LOWER('%c%')`: case-insensitive substring match. -/
def cityLike (c : String) (cityVal : String) : Bool :=
  charsContains c.toLower.data cityVal.toLower.data

/-- The SQL condition `LOWER(city) LIKE LOWER(%s)` with parameter `%c%`;
a NULL city never matches. -/
def cityCond (c : String) (r : Listing) : Bool :=
  match r.city with
  | some rc => cityLike c rc
  | none => false

/-- The SQL condition `list_price >= v`; NULL never satisfies it. -/
def minPriceCond (v : Int) (r : Listing) : Bool :=
  match r.list_price with
  | some p => v ≤ p
  | none => false

/-- The SQL condition `list_price <= v`; NULL never satisfies it. -/
def maxPriceCond (v : Int) (r : Listing) : Bool :=
  match r.list_price with
  | some p => p ≤ v
  | none => false

/-- The SQL condition `bedrooms = v`; NULL never satisfies it. -/
def bedroomsCond (v : Int) (r : Listing) : Bool :=
  r.bedrooms == some v

/-- The SQL condition `bathrooms = v`; NULL never satisfies it. -/
def bathroomsCond (v : Int) (r : Listing) : Bool :=
  r.bathrooms == some v

/-- One `if params.get(name): conditions.append(...)` step of
`search_properties`: the condition is appended exactly when the parameter is
truthy in Python, i.e. present and different from the type's falsy value `z`
(`""` for strings, `0` for numbers; an explicit `None` reads as absent). -/
def segConditions {α : Type} [DecidableEq α] (z : α) (po : Option α)
    (f : α → Listing → Bool) : List (Listing → Bool) :=
  match po with
  | some v => if v = z then [] else [f v]
  | none => []

/-- The dynamic `conditions` list built by `search_properties`: a condition
is appended exactly when the corresponding parameter is truthy in Python
(`if params.get('city'):` etc.), so `none`, `some ""` and `some 0` all
contribute nothing. -/
def buildConditions (p : SearchParams) : List (Listing → Bool) :=
  segConditions "" p.city cityCond ++
  segConditions 0 p.min_price minPriceCond ++
  segConditions 0 p.max_price maxPriceCond ++
  segConditions 0 p.bedrooms bedroomsCond ++
  segConditions 0 p.bathrooms bathroomsCond

/-- The WHERE clause: the conjunction (`" AND ".join`) of the built
conditions; the empty conjunction is `1=1`. -/
def rowSatisfies (p : SearchParams) (r : Listing) : Bool :=
  (buildConditions p).all (fun c => c r)

/-- The key of `ORDER BY list_price DESC` as a total Boolean preorder; PostgreSQL puts
NULLs first in descending order. -/
def priceDescLE (a b : Listing) : Bool :=
  match a.list_price, b.list_price with
  | none, _ => true
  | some _, none => false
  | some x, some y => y ≤ x

/-- The key of `ORDER BY is_primary DESC, display_order` as a total Boolean preorder;
primary rows first, then ascending display order with NULLs last. -/
def mediaOrderLE (a b : MediaRecord) : Bool :=
  if a.is_primary = b.is_primary then
    match a.display_order, b.display_order with
    | _, none => true
    | none, some _ => false
    | some x, some y => x ≤ y
  else a.is_primary

/-- The sort `ORDER BY is_primary DESC, display_order`. -/
def sortByMediaOrder (l : List MediaRecord) : List MediaRecord :=
  List.insertionSort (fun a b => mediaOrderLE a b = true) l

/-- The sort `ORDER BY list_price DESC`. -/
def sortByPriceDesc (l : List Listing) : List Listing :=
  List.insertionSort (fun a b => priceDescLE a b = true) l

/-- The per-listing media query of `search_properties`:
`SELECT ... FROM property_media WHERE listing_key = %s
 ORDER BY is_primary DESC, display_order LIMIT 5`. -/
def mediaFor (media : List MediaRecord) (key : String) : List MediaRecord :=
  ((sortByMediaOrder (media.filter (fun m => m.listing_key == some key))).take 5)

/-- The subselect `(SELECT COUNT(*) FROM property_media WHERE listing_key =
p.listing_key)` returned as `photo_count`. -/
def photoCount (media : List MediaRecord) (key : String) : Nat :=
  (media.filter (fun m => m.listing_key == some key)).length

/-- The listing rows of the main query of `search_properties`:
filter by the dynamic WHERE clause, `ORDER BY list_price DESC LIMIT 10`. -/
def searchBase (db : DBState) (p : SearchParams) : List Listing :=
  (sortByPriceDesc (db.properties.filter (rowSatisfies p))).take 10

/-- One returned dict of `search_properties`: the listing columns, the
`photo_count` aggregate, and the attached `media` slice. -/
structure SearchRow where
  row : Listing
  photo_count : Nat
  media : List MediaRecord
deriving DecidableEq, Repr

/-- Models `PropertyChatbotDB.search_properties`: the main query followed by the
per-row media attachment loop. -/
def searchProperties (db : DBState) (p : SearchParams) : List SearchRow :=
  (searchBase db p).map (fun r =>
    { row := r
      photo_count := photoCount db.media r.listing_key
      media := mediaFor db.media r.listing_key })

/-- The truthiness guard of `if media['media_url']:` in `process_message`:
keep a URL only when it is non-NULL and non-empty. -/
def mediaUrlTruthy (m : MediaRecord) : Option String :=
  match m.media_url with
  | some u => if u = "" then none else some u
  | none => none

/-- The media-URL extraction of `process_message`: the first 3 properties,
the first 3 media each, truthy URLs only, capped at 9 overall. -/
def extractMediaUrls (results : List SearchRow) : List String :=
  (((results.take 3).flatMap (fun sr => (sr.media.take 3).filterMap mediaUrlTruthy))).take 9

/-- The key of `ORDER BY count DESC` on (city, count) pairs. -/
def countDescLE (a b : String × Nat) : Bool :=
  b.2 ≤ a.2

/-- The sort `ORDER BY count DESC`. -/
def sortByCountDesc (l : List (String × Nat)) : List (String × Nat) :=
  List.insertionSort (fun a b => countDescLE a b = true) l

/-- Models `SELECT DISTINCT city, COUNT(*) ... WHERE city IS NOT NULL GROUP BY
city`: one pair per distinct non-NULL city with its row count (the grouping
order before `ORDER BY` is irrelevant; we enumerate groups in first-occurrence
order). -/
def cityGroups (props : List Listing) : List (String × Nat) :=
  let cities := props.filterMap (fun r => r.city)
  cities.dedup.map (fun c => (c, cities.count c))

/-- The pairs produced by `get_available_cities` before formatting:
group-by-count, `ORDER BY count DESC LIMIT 20`. -/
def cityPairs (props : List Listing) : List (String × Nat) :=
  (sortByCountDesc (cityGroups props)).take 20

/-- The output formatting `f"{c['city']} ({c['count']} properties)"`. -/
def formatCityGroup (g : String × Nat) : String :=
  g.1 ++ " (" ++ toString g.2 ++ " properties)"

/-- Models `PropertyChatbotDB.get_available_cities`. -/
def getAvailableCities (props : List Listing) : List String :=
  (cityPairs props).map formatCityGroup

/-- The direct group-by count the spec compares against: how many stored
listings have exactly this (non-NULL) city. -/
def directCityCount (c : String) (props : List Listing) : Nat :=
  (props.filter (fun r => r.city == some c)).length

/-!  Ingestion pipeline (`fetch_to_postgres.py`). -/

/-- The `DO UPDATE SET` list of the upsert in
`PropertyFetcher.insert_properties`: every mutable column is overwritten
with the incoming (`EXCLUDED`) value; the conflict target `listing_key`
itself is not in the SET list. -/
def applyConflictUpdate (old new : Listing) : Listing :=
  { old with
    unparsed_address := new.unparsed_address
    city := new.city
    state_province := new.state_province
    postal_code := new.postal_code
    list_price := new.list_price
    standard_status := new.standard_status
    property_type := new.property_type
    property_subtype := new.property_subtype
    bedrooms := new.bedrooms
    bathrooms := new.bathrooms
    year_built := new.year_built
    public_remarks := new.public_remarks
    last_updated := new.last_updated }

/-- One `INSERT ... ON CONFLICT (listing_key) DO UPDATE` statement: if a row
with the key exists it is updated in place, otherwise the row is appended. -/
def upsertOne (db : List Listing) (r : Listing) : List Listing :=
  if db.any (fun x => x.listing_key == r.listing_key) then
    db.map (fun x =>
      if x.listing_key == r.listing_key then applyConflictUpdate x r else x)
  else
    db ++ [r]

/-- Models `PropertyFetcher.insert_properties` applied to an already-sanitized
batch: `execute_batch` runs one upsert statement per record, in order. -/
def insertProperties (db : List Listing) (batch : List Listing) : List Listing :=
  batch.foldl upsertOne db

/-- Models `PropertyFetcher.insert_media`: `INSERT ... ON CONFLICT DO NOTHING`.
`property_media` has no uniqueness constraint besides its serial id, so the
conflict clause never fires and the insert is a plain append. -/
def insertMedia (db : List MediaRecord) (batch : List MediaRecord) : List MediaRecord :=
  db ++ batch

/-- The key lookup of the store: the (first) row with this `listing_key`. -/
def findKey (db : List Listing) (k : String) : Option Listing :=
  db.find? (fun x => x.listing_key == k)

/-- The `listing_key` column of a table. -/
def keysOf (db : List Listing) : List String :=
  db.map (fun r => r.listing_key)

/-- How many rows of the table carry this `listing_key`. -/
def countKey (db : List Listing) (k : String) : Nat :=
  (keysOf db).count k

/-- The last record of a batch carrying the given key (the record whose
values win under the sequential last-write-wins upsert). -/
def lastKeyed : List Listing → String → Option Listing
  | [], _ => none
  | r :: rest, k =>
    match lastKeyed rest k with
    | some x => some x
    | none => if r.listing_key == k then some r else none

/-- Outcome of one `httpx.get` call: either a response with a status code
and the parsed `value` array, or a raised transport exception
(`httpx.get` raises on timeouts and connection failures). -/
inductive HttpOutcome where
  | response (status : Nat) (body : List Listing)
  | failure (msg : String)
deriving DecidableEq, Repr

/-- The diagnostic line printed for a non-200 response. -/
def fetchDiag (status : Nat) : String :=
  "Property fetch failed: " ++ toString status

/-- Models `PropertyFetcher.fetch_properties`: on a 200 response return the `value`
array, on any other status print a diagnostic and return `[]`.  The body
has no try/except, so a transport failure propagates (`Except.error`) to
the caller.  The returned pair carries the emitted diagnostics. -/
def fetchProperties (out : HttpOutcome) : Except String (List Listing × List String) :=
  match out with
  | .response s body => if s == 200 then .ok (body, []) else .ok ([], [fetchDiag s])
  | .failure msg => .error msg

/-- Oracle for one ingestion run: what each fetch and each store write would
do, indexed by the page offset (`skip`). -/
structure FetchEnv where
  pages : Nat → List Listing
  insertFails : Nat → Bool
  pageMedia : Nat → List MediaRecord
  mediaInsertFails : Nat → Bool

/-- The listing-upsert step of one page of `fetch_all`:
`insert_properties` commits the batched upsert, or catches the exception,
rolls the batch back (leaving the store unchanged) and returns. -/
def insertStep (env : FetchEnv) (skip : Nat) (db : DBState) : DBState :=
  if env.insertFails skip then db
  else { db with properties := insertProperties db.properties (env.pages skip) }

/-- The keys collected per page:
`[p.get("ListingKey") for p in props if p.get("ListingKey")]`. -/
def pageKeys (env : FetchEnv) (skip : Nat) : List String :=
  ((env.pages skip).map (fun r => r.listing_key)).filter (fun k => !(k == ""))

/-- The media part of one page: keys with a truthy `ListingKey` are
collected; if any, media is fetched (oracle `pageMedia`) and, when non-empty,
inserted; `insert_media` rolls back and leaves the store unchanged on
failure. -/
def mediaStep (env : FetchEnv) (skip : Nat) (db : DBState) : DBState :=
  if (pageKeys env skip).isEmpty then db
  else if (env.pageMedia skip).isEmpty then db
  else if env.mediaInsertFails skip then db
  else { db with media := insertMedia db.media (env.pageMedia skip) }

/-- The body of `fetch_all` for one non-empty page. -/
def processPage (env : FetchEnv) (fetchMedia : Bool) (skip : Nat) (db : DBState) : DBState :=
  let db1 := insertStep env skip db
  if fetchMedia then mediaStep env skip db1 else db1

/-- The `for skip in range(0, limit, 100)` loop of `fetch_all` over a given
list of offsets, returning the final store and the list of offsets at which
a fetch request was actually issued; an empty page breaks the loop. -/
def fetchLoop (env : FetchEnv) (fetchMedia : Bool) : List Nat → DBState → DBState × List Nat
  | [], db => (db, [])
  | skip :: rest, db =>
    if (env.pages skip).isEmpty then (db, [skip])
    else
      let out := fetchLoop env fetchMedia rest (processPage env fetchMedia skip db)
      (out.1, skip :: out.2)

/-- Models `range(0, limit, 100)`: the candidate offsets of one run. -/
def pageOffsets (limit : Nat) : List Nat :=
  (List.range ((limit + 99) / 100)).map (fun i => i * 100)

/-- Models `PropertyFetcher.fetch_all`: the offset loop with page size 100. -/
def fetchAll (env : FetchEnv) (limit : Nat) (fetchMedia : Bool) (db : DBState) :
    DBState × List Nat :=
  fetchLoop env fetchMedia (pageOffsets limit) db

/-- The requested-offset trace as a function of the fetch oracle alone. -/
def traceOf (pages : Nat → List Listing) : List Nat → List Nat
  | [] => []
  | skip :: rest =>
    if (pages skip).isEmpty then [skip] else skip :: traceOf pages rest

/-- Python's `s[:n]` on a character list: a nonnegative bound keeps the
first `n` characters; a negative bound drops `|n|` characters from the
end. -/
def pySliceTo (s : List Char) (n : Int) : List Char :=
  if 0 ≤ n then s.take n.toNat
  else s.take (s.length - min s.length n.natAbs)

/-- Models `safe_str` from `fetch_to_postgres.py`, on the string form of the value
(`None` stays `None`); `return s[:max_len] if max_len else s` — a falsy
`max_len` (absent, `None`, or `0`) leaves the string whole. -/
def safeStr (val : Option (List Char)) (maxLen : Option Int) : Option (List Char) :=
  match val with
  | none => none
  | some s =>
    some (match maxLen with
      | some n => if n = 0 then s else pySliceTo s n
      | none => s)

/-!  Claim-side (declarative) predicates. -/

/-- The claim's reading of the WHERE clause: the conjunction of the
predicates actually supplied, where a supplied value always imposes its
constraint (even a zero value). -/
def suppliedConj (p : SearchParams) (r : Listing) : Bool :=
  (p.city.all (fun c => cityCond c r)) &&
  (p.min_price.all (fun v => minPriceCond v r)) &&
  (p.max_price.all (fun v => maxPriceCond v r)) &&
  (p.bedrooms.all (fun v => bedroomsCond v r)) &&
  (p.bathrooms.all (fun v => bathroomsCond v r))

/-- The conjunction the code actually enforces: a predicate constrains the
row only when it is supplied with a truthy value (`none`, `some ""` and
`some 0` impose no constraint). -/
def truthySatisfies (p : SearchParams) (r : Listing) : Prop :=
  (∀ c, p.city = some c → c ≠ "" → cityCond c r = true) ∧
  (∀ v, p.min_price = some v → v ≠ 0 → minPriceCond v r = true) ∧
  (∀ v, p.max_price = some v → v ≠ 0 → maxPriceCond v r = true) ∧
  (∀ v, p.bedrooms = some v → v ≠ 0 → bedroomsCond v r = true) ∧
  (∀ v, p.bathrooms = some v → v ≠ 0 → bathroomsCond v r = true)

/-- Whether some row of the table carries this `listing_key`. -/
def hasListingKey (db : List Listing) (k : String) : Bool :=
  db.any (fun r => r.listing_key == k)

/-!  Concrete instances used by witnesses and counterexamples. -/

/-- A listing with three bedrooms. -/
def exBed3 : Listing := { listing_key := "K3", bedrooms := some 3 }

/-- A store holding only `exBed3`. -/
def dbBed : DBState := { properties := [exBed3], media := [] }

/-- A search supplying `bedrooms = 0` (a falsy Python value). -/
def pZeroBed : SearchParams := { bedrooms := some 0 }

/-- An already-stored row for key `A1` with a newer source timestamp. -/
def rowOld : Listing :=
  { listing_key := "A1", list_price := some 900000, last_updated := some 999 }

/-- An incoming row for key `A1` with an older source timestamp. -/
def rowNew : Listing :=
  { listing_key := "A1", list_price := some 950000, last_updated := some 1 }

/-- The store before the batch. -/
def dbC2 : List Listing := [rowOld]

/-- A batch carrying the incoming `A1` row. -/
def batchC2 : List Listing := [rowNew]

/-- An ingestion oracle: one non-empty page at offset 0, all later pages
empty, no write failures, no media. -/
def envA : FetchEnv :=
  { pages := fun k => if k = 0 then [rowNew] else []
    insertFails := fun _ => false
    pageMedia := fun _ => []
    mediaInsertFails := fun _ => false }

/-- The same fetch oracle as `envA` but with every listing upsert failing. -/
def envB : FetchEnv := { envA with insertFails := fun _ => true }

/-- The empty store. -/
def dbEmpty : DBState := { properties := [], media := [] }

/-- A store holding the old `A1` row and no media. -/
def dbA1 : DBState := { properties := [rowOld], media := [] }

/-- A listing used in the media-ordering witness. -/
def L6 : Listing := { listing_key := "K6", city := some "Toronto" }

/-- A primary media row with the larger display order. -/
def mPrim : MediaRecord :=
  { listing_key := some "K6", media_url := some "u1", display_order := some 2,
    is_primary := true }

/-- A non-primary media row with the smaller display order. -/
def mSec : MediaRecord :=
  { listing_key := some "K6", media_url := some "u2", display_order := some 1,
    is_primary := false }

/-- A store with one listing and its two media rows (non-primary first). -/
def db6 : DBState := { properties := [L6], media := [mSec, mPrim] }

/-- A search with no predicate supplied. -/
def pNone : SearchParams := {}

/-- The row `search` returns for `L6`: primary media first despite its
larger display order. -/
def sr6 : SearchRow := { row := L6, photo_count := 2, media := [mPrim, mSec] }

/-- Listings for the city-aggregation witness: Toronto twice, Ottawa once,
one NULL city. -/
def props7 : List Listing :=
  [ { listing_key := "O1", city := some "Ottawa" },
    { listing_key := "T1", city := some "Toronto" },
    { listing_key := "N1" },
    { listing_key := "T2", city := some "Toronto" } ]

/-!  Helper lemmas. -/

theorem priceDescLE_trans (a b c : Listing) :
    priceDescLE a b = true → priceDescLE b c = true → priceDescLE a c = true := by
  unfold priceDescLE
  cases a.list_price <;> cases b.list_price <;> cases c.list_price <;> simp <;> omega

theorem priceDescLE_total (a b : Listing) : (priceDescLE a b || priceDescLE b a) = true := by
  unfold priceDescLE
  cases a.list_price <;> cases b.list_price <;> simp <;> omega

theorem mediaOrderLE_trans (a b c : MediaRecord) :
    mediaOrderLE a b = true → mediaOrderLE b c = true → mediaOrderLE a c = true := by
  unfold mediaOrderLE
  cases a.is_primary <;> cases b.is_primary <;> cases c.is_primary <;>
    cases a.display_order <;> cases b.display_order <;> cases c.display_order <;>
    simp <;> omega

theorem mediaOrderLE_total (a b : MediaRecord) :
    (mediaOrderLE a b || mediaOrderLE b a) = true := by
  unfold mediaOrderLE
  cases a.is_primary <;> cases b.is_primary <;>
    cases a.display_order <;> cases b.display_order <;> simp <;> omega

theorem countDescLE_trans (a b c : String × Nat) :
    countDescLE a b = true → countDescLE b c = true → countDescLE a c = true := by
  unfold countDescLE
  simp
  omega

theorem countDescLE_total (a b : String × Nat) :
    (countDescLE a b || countDescLE b a) = true := by
  unfold countDescLE
  simp
  omega

theorem seg_all {α : Type} [DecidableEq α] (z : α) (po : Option α)
    (f : α → Listing → Bool) (r : Listing) :
    ((segConditions z po f).all (fun c => c r) = true)
      ↔ (∀ v, po = some v → v ≠ z → f v r = true) := by
  unfold segConditions
  cases po with
  | none => simp
  | some v => by_cases hv : v = z <;> simp [hv]

theorem rowSatisfies_iff (p : SearchParams) (r : Listing) :
    rowSatisfies p r = true ↔ truthySatisfies p r := by
  unfold rowSatisfies buildConditions truthySatisfies
  simp only [List.all_append, Bool.and_eq_true]
  rw [seg_all, seg_all, seg_all, seg_all, seg_all]
  tauto

theorem searchProperties_map_row (db : DBState) (p : SearchParams) :
    (searchProperties db p).map SearchRow.row = searchBase db p := by
  unfold searchProperties
  rw [List.map_map]
  exact List.map_id _

theorem sortByPriceDesc_sorted (l : List Listing) :
    (sortByPriceDesc l).Pairwise (fun a b => priceDescLE a b = true) := by
  exact @List.sorted_insertionSort _ _ _
    ⟨fun a b => by
      have h := priceDescLE_total a b
      simp only [Bool.or_eq_true] at h
      exact h⟩
    ⟨fun a b c hab hbc => priceDescLE_trans a b c hab hbc⟩ l

theorem sortByPriceDesc_perm (l : List Listing) : (sortByPriceDesc l).Perm l :=
  List.perm_insertionSort _ l

theorem sortByMediaOrder_sorted (l : List MediaRecord) :
    (sortByMediaOrder l).Pairwise (fun a b => mediaOrderLE a b = true) := by
  exact @List.sorted_insertionSort _ _ _
    ⟨fun a b => by
      have h := mediaOrderLE_total a b
      simp only [Bool.or_eq_true] at h
      exact h⟩
    ⟨fun a b c hab hbc => mediaOrderLE_trans a b c hab hbc⟩ l

theorem sortByMediaOrder_perm (l : List MediaRecord) : (sortByMediaOrder l).Perm l :=
  List.perm_insertionSort _ l

theorem sortByCountDesc_sorted (l : List (String × Nat)) :
    (sortByCountDesc l).Pairwise (fun a b => countDescLE a b = true) := by
  exact @List.sorted_insertionSort _ _ _
    ⟨fun a b => by
      have h := countDescLE_total a b
      simp only [Bool.or_eq_true] at h
      exact h⟩
    ⟨fun a b c hab hbc => countDescLE_trans a b c hab hbc⟩ l

theorem sortByCountDesc_perm (l : List (String × Nat)) : (sortByCountDesc l).Perm l :=
  List.perm_insertionSort _ l

theorem mem_searchBase {db : DBState} {p : SearchParams} {r : Listing}
    (h : r ∈ searchBase db p) : r ∈ db.properties.filter (rowSatisfies p) := by
  unfold searchBase at h
  exact (sortByPriceDesc_perm _).mem_iff.1 (List.mem_of_mem_take h)

/-!  Claim theorems. -/

/-- C1 (counterexample): the claim fails as stated.  Supplying the
predicate `bedrooms = 0` — a falsy Python value — is treated exactly like
omitting it: `search` returns the 3-bedroom listing even though that row
does not satisfy the supplied predicate conjunction. -/
theorem C1_counterexample :
    (searchProperties dbBed pZeroBed).map SearchRow.row = [exBed3]
    ∧ suppliedConj pZeroBed exBed3 = false := by
  constructor <;> rfl

/-- C1 (amended): the WHERE clause of `search_properties` admits exactly
the rows satisfying the conjunction of the truthily-supplied predicates —
an absent predicate imposes no constraint, and a predicate supplied with a
null, zero, or empty value is treated as absent; every row `search` returns
comes from the table and satisfies that conjunction. -/
theorem C1_predicate_conjunction (db : DBState) (p : SearchParams) (r : Listing) :
    (r ∈ db.properties.filter (rowSatisfies p)
      ↔ r ∈ db.properties ∧ truthySatisfies p r)
    ∧ (∀ sr ∈ searchProperties db p,
        sr.row ∈ db.properties ∧ truthySatisfies p sr.row) := by
  constructor
  · rw [List.mem_filter, rowSatisfies_iff]
  · intro sr hsr
    obtain ⟨x, hx, rfl⟩ := List.mem_map.1 hsr
    have hx' := List.mem_filter.1 (mem_searchBase hx)
    exact ⟨hx'.1, (rowSatisfies_iff p x).1 hx'.2⟩

/-- C1 witness: the amended characterization evaluated on the concrete
one-row store: with no truthy predicate the 3-bedroom row passes the
filter. -/
theorem C1_witness :
    exBed3 ∈ dbBed.properties.filter (rowSatisfies pZeroBed)
      ↔ exBed3 ∈ dbBed.properties ∧ truthySatisfies pZeroBed exBed3 :=
  (C1_predicate_conjunction dbBed pZeroBed exBed3).1

/-- C5: the rows returned by `search` are ordered by list price descending
(PostgreSQL `DESC` places NULL prices first) and capped at 10. -/
theorem C5_order_and_cap (db : DBState) (p : SearchParams) :
    ((searchProperties db p).map SearchRow.row).Pairwise
      (fun a b => priceDescLE a b = true)
    ∧ (searchProperties db p).length ≤ 10 := by
  constructor
  · rw [searchProperties_map_row]
    exact List.Pairwise.sublist (List.take_sublist _ _) (sortByPriceDesc_sorted _)
  · unfold searchProperties searchBase
    rw [List.length_map]
    exact List.length_take_le _ _

/-- C6: each returned listing's media slice holds at most 5 rows, ordered
primary-first then by ascending display order; when the store has a
primary-flagged media row for that listing, the slice starts with a
primary-flagged row; the preview extraction of `process_message` surfaces
at most 3 media per property and at most 9 overall. -/
theorem C6_media_slice (db : DBState) (p : SearchParams) (sr : SearchRow)
    (hsr : sr ∈ searchProperties db p) :
    sr.media.length ≤ 5
    ∧ sr.media.Pairwise (fun a b => mediaOrderLE a b = true)
    ∧ (∀ m ∈ db.media, m.listing_key = some sr.row.listing_key →
        m.is_primary = true →
        ∃ m0, sr.media.head? = some m0 ∧ m0.is_primary = true)
    ∧ ((sr.media.take 3).filterMap mediaUrlTruthy).length ≤ 3
    ∧ (extractMediaUrls (searchProperties db p)).length ≤ 9 := by
  obtain ⟨r, hr, rfl⟩ := List.mem_map.1 hsr
  refine ⟨List.length_take_le _ _, ?_, ?_, ?_, List.length_take_le _ _⟩
  · exact List.Pairwise.sublist (List.take_sublist _ _) (sortByMediaOrder_sorted _)
  · intro m hm hkey hprim
    have hmf : m ∈ db.media.filter (fun x => x.listing_key == some r.listing_key) :=
      List.mem_filter.2 ⟨hm, by simp [hkey]⟩
    have hmL : m ∈ sortByMediaOrder
        (db.media.filter (fun x => x.listing_key == some r.listing_key)) :=
      (sortByMediaOrder_perm _).mem_iff.2 hmf
    have hsort := sortByMediaOrder_sorted
      (db.media.filter (fun x => x.listing_key == some r.listing_key))
    cases hLc : sortByMediaOrder
        (db.media.filter (fun x => x.listing_key == some r.listing_key)) with
    | nil => rw [hLc] at hmL; cases hmL
    | cons h0 t =>
      refine ⟨h0, ?_, ?_⟩
      · show (mediaFor db.media r.listing_key).head? = some h0
        unfold mediaFor
        rw [hLc]
        rfl
      · by_contra hnp
        rw [hLc] at hmL hsort
        rcases List.mem_cons.1 hmL with rfl | hmt
        · exact hnp hprim
        · have hle := (List.pairwise_cons.1 hsort).1 m hmt
          have hb : h0.is_primary = false := by
            cases hh : h0.is_primary
            · rfl
            · exact absurd hh hnp
          rw [mediaOrderLE, hb, hprim] at hle
          simp at hle
  · exact le_trans (List.length_filterMap_le _ _) (List.length_take_le _ _)

/-- C6 witness: on the concrete store `db6` the returned row is `sr6`, whose
slice puts the primary-flagged row first despite its larger display order. -/
theorem C6_witness :
    sr6 ∈ searchProperties db6 pNone
    ∧ (sr6.media.length ≤ 5
       ∧ sr6.media.Pairwise (fun a b => mediaOrderLE a b = true)
       ∧ (∀ m ∈ db6.media, m.listing_key = some sr6.row.listing_key →
           m.is_primary = true →
           ∃ m0, sr6.media.head? = some m0 ∧ m0.is_primary = true)
       ∧ ((sr6.media.take 3).filterMap mediaUrlTruthy).length ≤ 3
       ∧ (extractMediaUrls (searchProperties db6 pNone)).length ≤ 9) :=
  ⟨by decide, C6_media_slice db6 pNone sr6 (by decide)⟩

theorem count_city (props : List Listing) (c : String) :
    (props.filterMap (fun r => r.city)).count c = directCityCount c props := by
  induction props with
  | nil => rfl
  | cons r t ih =>
    unfold directCityCount at ih ⊢
    cases hc : r.city with
    | none => simp [List.filterMap_cons, hc, List.filter_cons, ih]
    | some c2 =>
      by_cases hcc : c2 = c
      · subst hcc
        simp [List.filterMap_cons, hc, List.filter_cons, List.count_cons, ih]
      · simp [List.filterMap_cons, hc, List.filter_cons, List.count_cons, hcc, ih]

theorem mem_cityGroups {props : List Listing} {g : String × Nat}
    (h : g ∈ cityGroups props) :
    g.2 = directCityCount g.1 props ∧ 0 < g.2 := by
  unfold cityGroups at h
  obtain ⟨c, hc, rfl⟩ := List.mem_map.1 h
  constructor
  · simpa using count_city props c
  · have hm : c ∈ props.filterMap (fun r => r.city) := List.mem_dedup.1 hc
    simpa using List.count_pos_iff.2 hm

theorem cityGroups_fst (props : List Listing) :
    (cityGroups props).map Prod.fst = (props.filterMap (fun r => r.city)).dedup := by
  unfold cityGroups
  rw [List.map_map]
  exact List.map_id _

theorem cityPairs_fst_nodup (props : List Listing) :
    ((cityPairs props).map Prod.fst).Nodup := by
  unfold cityPairs
  rw [List.map_take]
  refine (List.take_sublist _ _).nodup ?_
  have hperm : ((sortByCountDesc (cityGroups props)).map Prod.fst).Perm
      ((cityGroups props).map Prod.fst) := (sortByCountDesc_perm _).map _
  rw [hperm.nodup_iff, cityGroups_fst]
  exact List.nodup_dedup _

theorem cityPairs_complete {props : List Listing}
    (h : (cityGroups props).length ≤ 20) {r : Listing} (hr : r ∈ props)
    {c : String} (hc : r.city = some c) :
    c ∈ (cityPairs props).map Prod.fst := by
  unfold cityPairs
  rw [List.map_take, List.take_of_length_le]
  · have hbase : c ∈ (cityGroups props).map Prod.fst := by
      rw [cityGroups_fst, List.mem_dedup, List.mem_filterMap]
      exact ⟨r, hr, hc⟩
    exact ((sortByCountDesc_perm _).map Prod.fst).mem_iff.2 hbase
  · rw [List.length_map]
    have := (sortByCountDesc_perm (cityGroups props)).length_eq
    omega

/-- C7: `get_available_cities` formats the group-by-count pairs; those pairs
are at most 20, ordered by descending count, each pair's count equals the
direct group-by count over the stored listings and is positive, cities are
not repeated, and (when there are at most 20 distinct cities) every non-null
stored city appears. -/
theorem C7_city_aggregation (props : List Listing) :
    getAvailableCities props = (cityPairs props).map formatCityGroup
    ∧ (cityPairs props).length ≤ 20
    ∧ (cityPairs props).Pairwise (fun a b => countDescLE a b = true)
    ∧ (∀ g ∈ cityPairs props, g.2 = directCityCount g.1 props ∧ 0 < g.2)
    ∧ ((cityPairs props).map Prod.fst).Nodup
    ∧ ((cityGroups props).length ≤ 20 →
        ∀ r ∈ props, ∀ c, r.city = some c →
          c ∈ (cityPairs props).map Prod.fst) := by
  refine ⟨rfl, List.length_take_le _ _, ?_, ?_, cityPairs_fst_nodup props, ?_⟩
  · exact List.Pairwise.sublist (List.take_sublist _ _) (sortByCountDesc_sorted _)
  · intro g hg
    have hgm : g ∈ cityGroups props :=
      (sortByCountDesc_perm _).mem_iff.1 (List.mem_of_mem_take hg)
    exact mem_cityGroups hgm
  · intro h r hr c hc
    exact cityPairs_complete h hr hc

/-- C7 witness: on the concrete table Toronto (2 rows) sorts before Ottawa
(1 row), the NULL city is dropped, and each count matches the direct
group-by. -/
theorem C7_witness :
    cityPairs props7 = [("Toronto", 2), ("Ottawa", 1)]
    ∧ getAvailableCities props7 = ["Toronto (2 properties)", "Ottawa (1 properties)"]
    ∧ (∀ g ∈ cityPairs props7, g.2 = directCityCount g.1 props7 ∧ 0 < g.2) :=
  ⟨by decide, by decide, (C7_city_aggregation props7).2.2.2.1⟩

theorem applyConflictUpdate_key (x r : Listing) :
    (applyConflictUpdate x r).listing_key = x.listing_key := rfl

theorem applyConflictUpdate_eq {x r : Listing} (h : x.listing_key = r.listing_key) :
    applyConflictUpdate x r = r := by
  cases x
  cases r
  simp_all [applyConflictUpdate]

theorem keysOf_upsertOne (db : List Listing) (r : Listing) :
    keysOf (upsertOne db r) =
      if db.any (fun x => x.listing_key == r.listing_key) then keysOf db
      else keysOf db ++ [r.listing_key] := by
  unfold upsertOne
  split
  · simp only [keysOf, List.map_map]
    refine List.map_congr_left ?_
    intro x _
    by_cases hx : x.listing_key == r.listing_key <;>
      simp [hx, Function.comp, applyConflictUpdate_key]
  · simp [keysOf]

theorem nodup_keysOf_upsertOne {db : List Listing} (r : Listing)
    (h : (keysOf db).Nodup) : (keysOf (upsertOne db r)).Nodup := by
  rw [keysOf_upsertOne]
  split
  · exact h
  · next hany =>
    rw [List.nodup_append]
    refine ⟨h, List.nodup_singleton _, ?_⟩
    intro a ha hb
    simp only [List.mem_singleton] at hb
    subst hb
    simp only [List.any_eq_true, not_exists, not_and, Bool.not_eq_true] at hany
    simp only [keysOf, List.mem_map] at ha
    obtain ⟨x, hx, hk⟩ := ha
    have := hany x hx
    rw [hk] at this
    simp at this

theorem findKey_map_ne {k : String} (r : Listing) (db : List Listing)
    (h : k ≠ r.listing_key) :
    findKey (db.map (fun x =>
      if x.listing_key == r.listing_key then applyConflictUpdate x r else x)) k
      = findKey db k := by
  induction db with
  | nil => rfl
  | cons x t ih =>
    simp only [List.map_cons]
    unfold findKey at ih ⊢
    by_cases hx : x.listing_key == r.listing_key
    · have hxr : x.listing_key = r.listing_key := by simpa using hx
      have hxk : (x.listing_key == k) = false := by
        rw [hxr]
        simpa using Ne.symm h
      rw [if_pos hx]
      rw [List.find?_cons, List.find?_cons, applyConflictUpdate_key, hxk]
      exact ih
    · rw [if_neg hx]
      rw [List.find?_cons, List.find?_cons]
      cases hk : x.listing_key == k
      · exact ih
      · rfl

theorem findKey_map_eq (db : List Listing) (r : Listing)
    (hany : db.any (fun x => x.listing_key == r.listing_key) = true) :
    findKey (db.map (fun x =>
      if x.listing_key == r.listing_key then applyConflictUpdate x r else x))
      r.listing_key = some r := by
  induction db with
  | nil => simp at hany
  | cons x t ih =>
    simp only [List.any_cons, Bool.or_eq_true] at hany
    simp only [List.map_cons]
    unfold findKey at ih ⊢
    by_cases hx : x.listing_key == r.listing_key
    · have hxr : x.listing_key = r.listing_key := by simpa using hx
      rw [if_pos hx]
      rw [List.find?_cons, applyConflictUpdate_key, hxr]
      simp only [beq_self_eq_true]
      rw [applyConflictUpdate_eq hxr]
    · rw [if_neg hx]
      rw [List.find?_cons]
      have hxf : (x.listing_key == r.listing_key) = false := by
        simpa using hx
      rw [hxf]
      cases hany with
      | inl h1 => exact absurd h1 hx
      | inr h2 => exact ih h2

theorem findKey_upsertOne (db : List Listing) (r : Listing) (k : String) :
    findKey (upsertOne db r) k =
      if r.listing_key == k then some r else findKey db k := by
  unfold upsertOne
  split
  · next hany =>
    by_cases hk : r.listing_key == k
    · have hkeq : r.listing_key = k := by simpa using hk
      rw [if_pos hk, ← hkeq]
      exact findKey_map_eq db r hany
    · rw [if_neg hk]
      have hne : k ≠ r.listing_key := by
        intro hh
        exact hk (by simp [hh])
      exact findKey_map_ne r db hne
  · next hany =>
    unfold findKey
    rw [List.find?_append]
    by_cases hk : r.listing_key == k
    · have hkeq : r.listing_key = k := by simpa using hk
      have hnone : db.find? (fun x => x.listing_key == k) = none := by
        rw [List.find?_eq_none]
        intro x hx hxk
        refine hany ?_
        rw [List.any_eq_true]
        refine ⟨x, hx, ?_⟩
        have hxkeq : x.listing_key = k := by simpa using hxk
        simp [hxkeq, hkeq]
      rw [hnone, if_pos hk]
      simp [List.find?_cons, hk]
    · rw [if_neg hk]
      have hr : List.find? (fun x => x.listing_key == k) [r] = none := by
        have hkf : (r.listing_key == k) = false := by
          cases hc : r.listing_key == k
          · rfl
          · exact absurd hc hk
        simp [List.find?_cons, hkf]
      rw [hr, Option.or_none]

theorem findKey_insertProperties (batch : List Listing) :
    ∀ (db : List Listing) (k : String),
      findKey (insertProperties db batch) k =
        match lastKeyed batch k with
        | some x => some x
        | none => findKey db k := by
  induction batch with
  | nil => intro db k; rfl
  | cons r rest ih =>
    intro db k
    have hstep : insertProperties db (r :: rest)
        = insertProperties (upsertOne db r) rest := rfl
    rw [hstep, ih]
    cases hrest : lastKeyed rest k with
    | some x => simp [lastKeyed, hrest]
    | none =>
      simp only [lastKeyed, hrest]
      rw [findKey_upsertOne]
      by_cases hr : r.listing_key == k <;> simp [hr]

theorem nodup_keysOf_insertProperties (batch : List Listing) :
    ∀ db : List Listing,
      (keysOf db).Nodup → (keysOf (insertProperties db batch)).Nodup := by
  induction batch with
  | nil => intro db h; exact h
  | cons r rest ih =>
    intro db h
    exact ih _ (nodup_keysOf_upsertOne r h)

theorem lastKeyed_of_mem {r : Listing} {batch : List Listing} (h : r ∈ batch) :
    ∃ x, lastKeyed batch r.listing_key = some x := by
  induction batch with
  | nil => cases h
  | cons a t ih =>
    rcases List.mem_cons.1 h with rfl | ht
    · cases hla : lastKeyed t r.listing_key with
      | some x => exact ⟨x, by simp [lastKeyed, hla]⟩
      | none => exact ⟨r, by simp [lastKeyed, hla]⟩
    · obtain ⟨x, hx⟩ := ih ht
      exact ⟨x, by simp [lastKeyed, hx]⟩

theorem countKey_eq_one {db : List Listing} {k : String} {x : Listing}
    (hnd : (keysOf db).Nodup) (hf : findKey db k = some x) :
    countKey db k = 1 := by
  have hle := List.nodup_iff_count_le_one.1 hnd k
  have hf2 : List.find? (fun y => y.listing_key == k) db = some x := hf
  have hmem : x ∈ db := List.mem_of_find?_eq_some hf2
  have hpx : (x.listing_key == k) = true :=
    @List.find?_some _ (fun y => y.listing_key == k) x db hf2
  have hk : x.listing_key = k := by simpa using hpx
  have hkm : k ∈ keysOf db := by
    rw [keysOf, List.mem_map]
    exact ⟨x, hmem, hk⟩
  have hge : 0 < (keysOf db).count k := List.count_pos_iff.2 hkm
  unfold countKey
  omega

/-- C2: with unique keys in the store (the `listing_key` primary key),
applying the batched upsert twice with the same records keeps keys unique,
leaves exactly one row per batch `listing_key`, and stores for each key the
last batch record with that key — every mutable field is taken from the
incoming record unconditionally, with no comparison against the stored
`last_updated`. -/
theorem C2_upsert_idempotent (db batch : List Listing)
    (h : (keysOf db).Nodup) :
    (keysOf (insertProperties (insertProperties db batch) batch)).Nodup
    ∧ (∀ r ∈ batch,
        countKey (insertProperties (insertProperties db batch) batch)
          r.listing_key = 1)
    ∧ (∀ k x, lastKeyed batch k = some x →
        findKey (insertProperties (insertProperties db batch) batch) k
          = some x) := by
  have h1 := nodup_keysOf_insertProperties batch db h
  have h2 := nodup_keysOf_insertProperties batch _ h1
  refine ⟨h2, ?_, ?_⟩
  · intro r hr
    obtain ⟨x, hx⟩ := lastKeyed_of_mem hr
    have hf : findKey (insertProperties (insertProperties db batch) batch)
        r.listing_key = some x := by
      rw [findKey_insertProperties, hx]
    exact countKey_eq_one h2 hf
  · intro k x hx
    rw [findKey_insertProperties, hx]

/-- C2 witness: re-ingesting the `A1` batch over a store already holding an
`A1` row with a newer `last_updated` leaves one row carrying the incoming
values (last write wins). -/
theorem C2_witness :
    findKey (insertProperties (insertProperties dbC2 batchC2) batchC2) "A1"
      = some rowNew
    ∧ countKey (insertProperties (insertProperties dbC2 batchC2) batchC2)
        rowNew.listing_key = 1 := by
  have h := C2_upsert_idempotent dbC2 batchC2 (by decide)
  exact ⟨h.2.2 "A1" rowNew (by decide), h.2.1 rowNew (by decide)⟩

/-- C3 (counterexample): the claim fails as stated. `fetch_properties` has
no try/except around `httpx.get`, so a transport failure is not turned into
an empty sequence — it propagates as an exception to the caller. -/
theorem C3_counterexample :
    fetchProperties (HttpOutcome.failure "timeout") = Except.error "timeout" := rfl

/-- C3 (amended): a 200 response yields the parsed rows with no diagnostic;
a non-success status yields an empty sequence plus a diagnostic and does not
raise; a transport failure propagates as an exception to the caller. -/
theorem C3_fetch_error_handling (s : Nat) (b : List Listing) (m : String)
    (hs : s ≠ 200) :
    fetchProperties (HttpOutcome.response 200 b) = Except.ok (b, [])
    ∧ fetchProperties (HttpOutcome.response s b) = Except.ok ([], [fetchDiag s])
    ∧ fetchProperties (HttpOutcome.failure m) = Except.error m := by
  refine ⟨rfl, ?_, rfl⟩
  simp [fetchProperties, hs]

/-- C3 witness: a 404 response is swallowed into an empty result plus the
printed diagnostic. -/
theorem C3_witness :
    (404 : Nat) ≠ 200
    ∧ fetchProperties (HttpOutcome.response 404 [])
        = Except.ok ([], [fetchDiag 404]) :=
  ⟨by decide, (C3_fetch_error_handling 404 [] "x" (by decide)).2.1⟩

theorem fetchLoop_trace (env : FetchEnv) (fm : Bool) :
    ∀ (skips : List Nat) (db : DBState),
      (fetchLoop env fm skips db).2 = traceOf env.pages skips := by
  intro skips
  induction skips with
  | nil => intro db; rfl
  | cons s rest ih =>
    intro db
    unfold fetchLoop traceOf
    by_cases hemp : (env.pages s).isEmpty <;> simp [hemp, ih]

theorem traceOf_sublist (pages : Nat → List Listing) :
    ∀ skips : List Nat, (traceOf pages skips).Sublist skips := by
  intro skips
  induction skips with
  | nil => simp [traceOf]
  | cons s rest ih =>
    unfold traceOf
    split
    · exact (List.nil_sublist rest).cons₂ s
    · exact ih.cons₂ s

theorem traceOf_le {pages : Nat → List Listing} :
    ∀ {skips : List Nat}, skips.Pairwise (· < ·) →
      ∀ {k j : Nat}, k ∈ traceOf pages skips → pages k = [] →
        j ∈ traceOf pages skips → j ≤ k := by
  intro skips
  induction skips with
  | nil =>
    intro _ k j hk
    simp [traceOf] at hk
  | cons s rest ih =>
    intro hpw k j hk hkemp hj
    rw [List.pairwise_cons] at hpw
    by_cases hemp : (pages s).isEmpty
    · simp [traceOf, hemp] at hk hj
      omega
    · simp only [traceOf, if_neg hemp, List.mem_cons] at hk hj
      rcases hk with rfl | hk
      · rw [hkemp] at hemp
        simp at hemp
      · rcases hj with rfl | hj
        · have hkr : k ∈ rest := (traceOf_sublist pages rest).subset hk
          exact le_of_lt (hpw.1 k hkr)
        · exact ih hpw.2 hk hkemp hj

theorem pageOffsets_pairwise (limit : Nat) :
    (pageOffsets limit).Pairwise (· < ·) := by
  unfold pageOffsets
  refine List.Pairwise.map _ ?_ (List.pairwise_lt_range _)
  intro a b hab
  omega

/-- C4: once a fetch at offset `k` returns an empty page, the run issues no
fetch request at any offset greater than `k`: every requested offset is at
most `k`. -/
theorem C4_pagination_termination (env : FetchEnv) (fm : Bool) (limit : Nat)
    (db : DBState) (k j : Nat)
    (hk : k ∈ (fetchAll env limit fm db).2) (hkemp : env.pages k = [])
    (hj : j ∈ (fetchAll env limit fm db).2) : j ≤ k := by
  unfold fetchAll at hk hj
  rw [fetchLoop_trace] at hk hj
  exact traceOf_le (pageOffsets_pairwise limit) hk hkemp hj

/-- C4 witness: with one non-empty page at offset 0 and an empty page at
offset 100, the run requests offsets 0 and 100 only, and both are ≤ 100. -/
theorem C4_witness :
    100 ∈ (fetchAll envA 300 true dbEmpty).2
    ∧ envA.pages 100 = []
    ∧ 0 ∈ (fetchAll envA 300 true dbEmpty).2
    ∧ (0 : Nat) ≤ 100 := by
  refine ⟨by decide, by decide, by decide, ?_⟩
  exact C4_pagination_termination envA true 300 dbEmpty 100 0
    (by decide) (by decide) (by decide)

theorem traceOf_nodup (pages : Nat → List Listing) (limit : Nat) :
    (traceOf pages (pageOffsets limit)).Nodup := by
  refine (traceOf_sublist pages (pageOffsets limit)).nodup ?_
  exact (pageOffsets_pairwise limit).imp Nat.ne_of_lt

/-- C8: when the batched upsert of a page fails, the rollback leaves the
store exactly as it was before that batch (no row-level partial commit),
and the loop's behaviour is unaffected: the trace of requested offsets
depends only on the fetched pages — the failed batch is not retried (each
offset is requested at most once) and later pages are still processed. -/
theorem C8_batch_failure_isolation (env env2 : FetchEnv) (fm fm2 : Bool)
    (limit : Nat) (db db2 : DBState) (skip : Nat)
    (hfail : env.insertFails skip = true)
    (hpages : env2.pages = env.pages) :
    insertStep env skip db = db
    ∧ (fetchAll env limit fm db).2.Nodup
    ∧ (fetchAll env2 limit fm2 db2).2 = (fetchAll env limit fm db).2 := by
  refine ⟨by simp [insertStep, hfail], ?_, ?_⟩
  · unfold fetchAll
    rw [fetchLoop_trace]
    exact traceOf_nodup env.pages limit
  · unfold fetchAll
    rw [fetchLoop_trace, fetchLoop_trace, hpages]

/-- C8 witness: `envB` fails every upsert over the same pages as `envA`; the
failing batch leaves the store unchanged and the requested offsets match the
run without failures. -/
theorem C8_witness :
    envB.insertFails 0 = true
    ∧ insertStep envB 0 dbA1 = dbA1
    ∧ (fetchAll envB 300 true dbA1).2.Nodup
    ∧ (fetchAll envA 300 true dbEmpty).2 = (fetchAll envB 300 true dbA1).2 := by
  have h := C8_batch_failure_isolation envB envA true true 300 dbA1 dbEmpty 0
    rfl rfl
  exact ⟨rfl, h.1, h.2.1, h.2.2⟩

theorem hasListingKey_iff (db : List Listing) (k : String) :
    hasListingKey db k = true ↔ k ∈ keysOf db := by
  simp only [hasListingKey, List.any_eq_true, keysOf, List.mem_map]
  constructor
  · rintro ⟨x, hx, hk⟩
    exact ⟨x, hx, by simpa using hk⟩
  · rintro ⟨x, hx, hk⟩
    exact ⟨x, hx, by simpa using hk⟩

theorem hasListingKey_upsertOne {db : List Listing} {k : String} (r : Listing)
    (h : hasListingKey db k = true) : hasListingKey (upsertOne db r) k = true := by
  rw [hasListingKey_iff] at h ⊢
  rw [keysOf_upsertOne]
  split
  · exact h
  · exact List.mem_append_left _ h

theorem hasListingKey_insertProperties (batch : List Listing) :
    ∀ {db : List Listing} {k : String},
      hasListingKey db k = true →
      hasListingKey (insertProperties db batch) k = true := by
  induction batch with
  | nil => intro db k h; exact h
  | cons r rest ih =>
    intro db k h
    exact ih (hasListingKey_upsertOne r h)

theorem mediaStep_properties (env : FetchEnv) (skip : Nat) (db : DBState) :
    (mediaStep env skip db).properties = db.properties := by
  unfold mediaStep
  split_ifs <;> rfl

theorem processPage_hasKey (env : FetchEnv) (fm : Bool) (skip : Nat)
    {db : DBState} {k : String} (h : hasListingKey db.properties k = true) :
    hasListingKey (processPage env fm skip db).properties k = true := by
  unfold processPage
  have h1 : hasListingKey (insertStep env skip db).properties k = true := by
    unfold insertStep
    split
    · exact h
    · exact hasListingKey_insertProperties _ h
  split
  · rw [mediaStep_properties]
    exact h1
  · exact h1

theorem fetchLoop_hasKey (env : FetchEnv) (fm : Bool) :
    ∀ (skips : List Nat) (db : DBState) (k : String),
      hasListingKey db.properties k = true →
      hasListingKey (fetchLoop env fm skips db).1.properties k = true := by
  intro skips
  induction skips with
  | nil => intro db k h; exact h
  | cons s rest ih =>
    intro db k h
    unfold fetchLoop
    split
    · exact h
    · exact ih _ k (processPage_hasKey env fm s h)

/-- C9: no pipeline operation removes an existing listing row — the batched
upsert only inserts or overwrites, the media insert leaves the listings
table untouched, and a full `fetch_all` run preserves every `listing_key`
present before it. -/
theorem C9_no_listing_deleted (env : FetchEnv) (fm : Bool) (limit : Nat)
    (st : DBState) (db batch : List Listing) (k : String) (skip : Nat) :
    (hasListingKey db k = true → hasListingKey (insertProperties db batch) k = true)
    ∧ (mediaStep env skip st).properties = st.properties
    ∧ (hasListingKey st.properties k = true →
        hasListingKey (fetchAll env limit fm st).1.properties k = true) := by
  refine ⟨fun h => hasListingKey_insertProperties batch h,
    mediaStep_properties env skip st, fun h => ?_⟩
  unfold fetchAll
  exact fetchLoop_hasKey env fm _ st k h

/-- C9 witness: the `A1` row present before the run is still present after
the full ingestion run. -/
theorem C9_witness :
    hasListingKey dbA1.properties "A1" = true
    ∧ hasListingKey (fetchAll envA 300 true dbA1).1.properties "A1" = true := by
  refine ⟨by decide, ?_⟩
  exact (C9_no_listing_deleted envA true 300 dbA1 [] [] "A1" 0).2.2 (by decide)

/-- C10: `safe_str` returns `None` exactly on a `None` input; with a
positive `max_len` it returns a prefix of the string form of length at most
`max_len`; with `max_len` absent, `None`, or `0` (all falsy in Python) it
returns the whole string untruncated. -/
theorem C10_safe_str (v : Option (List Char)) (m : Option Int) (s : List Char)
    (k : Int) :
    (safeStr v m = none ↔ v = none)
    ∧ (0 < k →
        safeStr (some s) (some k) = some (s.take k.toNat)
        ∧ (s.take k.toNat) <+: s
        ∧ (s.take k.toNat).length ≤ k.toNat)
    ∧ safeStr (some s) none = some s
    ∧ safeStr (some s) (some 0) = some s := by
  refine ⟨?_, ?_, rfl, by simp [safeStr]⟩
  · cases v <;> simp [safeStr]
  · intro hk
    have hk0 : k ≠ 0 := by omega
    refine ⟨?_, ⟨s.drop k.toNat, List.take_append_drop _ _⟩, ?_⟩
    · simp only [safeStr, pySliceTo, if_neg hk0, if_pos (le_of_lt hk)]
    · exact le_trans (le_of_eq (List.length_take _ _)) (Nat.min_le_left _ _)

/-- C10 witness: truncating "abc" to 2 keeps the 2-character prefix. -/
theorem C10_witness :
    (0 : Int) < 2
    ∧ (safeStr (some ['a', 'b', 'c']) (some 2)
        = some (['a', 'b', 'c'].take (2 : Int).toNat)
       ∧ (['a', 'b', 'c'].take (2 : Int).toNat) <+: ['a', 'b', 'c']
       ∧ (['a', 'b', 'c'].take (2 : Int).toNat).length ≤ (2 : Int).toNat) :=
  ⟨by decide,
    (C10_safe_str (some ['a', 'b', 'c']) (some 2) ['a', 'b', 'c'] 2).2.1
      (by decide)⟩
